import Mathlib

/-!
Verification of the Bewerbertool candidate-record backend.

The embedding follows the dependency-free implementation in `server.py`
(the Flask variant in `app.py` implements the same behaviour; where the two
differ at a claim, the difference is noted at the claim).  Machinery:

* `JValue` models the JSON values that travel through the HTTP interface and
  the `ratings` TEXT column.  JSON numbers are modelled as integers (the
  ratings scores the system stores are integers; no code path of the
  repository produces a float).
* `jsonDumps` models Python's `json.dumps` on these values: default
  separators `", "` / `": "`, `ensure_ascii=True` escaping (`\uXXXX` with
  lowercase hex, surrogate pairs above U+FFFF, short escapes for the usual
  control characters).
* `parseJson` models `json.loads` on the same fragment: a recursive-descent
  parser over the character list, strict mode (raw control characters in
  strings rejected), surrounding whitespace allowed, full consumption
  required.
-/

namespace Bewerbertool

/-- JSON values as they appear in request payloads and the serialized
`ratings` column.  Numbers are modelled as integers. -/
inductive JValue where
  | null
  | bool (b : Bool)
  | num (n : Int)
  | str (s : String)
  | arr (elems : List JValue)
  | obj (members : List (String × JValue))

/-! ### Decimal digits (Python `str` of an integer, `{n:05d}` padding) -/

/-- The character for a single decimal digit. -/
def digitChar (d : Nat) : Char := Char.ofNat (48 + d)

/-- Recursion worker for `natDigits`; the fuel (any bound above `n`) makes
the recursion structural, so that terms evaluate by kernel reduction. -/
def natDigitsAux : Nat → Nat → List Char
  | 0, _ => []
  | fuel + 1, n =>
    if n < 10 then [digitChar n]
    else natDigitsAux fuel (n / 10) ++ [digitChar (n % 10)]

/-- Decimal digit string of a natural number, most significant first.
Models Python's `str(n)` for `n ≥ 0`. -/
def natDigits (n : Nat) : List Char := natDigitsAux (n + 1) n

/-- Python `str(i)` for an integer. -/
def intDigits (i : Int) : List Char :=
  if i < 0 then '-' :: natDigits i.natAbs else natDigits i.toNat

/-- Numeric value of a decimal digit character. -/
def digitVal (c : Char) : Nat := c.toNat - 48

/-- Value of a decimal digit string (fold, most significant first). -/
def foldDigits (ds : List Char) : Nat := ds.foldl (fun a c => a * 10 + digitVal c) 0

/-! ### The JSON encoder (`json.dumps` with default options) -/

/-- Lowercase hexadecimal digit character (as CPython's encoder emits). -/
def hexDigit (d : Nat) : Char :=
  if d < 10 then digitChar d else Char.ofNat (87 + d)

/-- Four-digit hexadecimal rendering of a code unit, for `\uXXXX` escapes. -/
def hex4 (v : Nat) : List Char :=
  [hexDigit (v / 4096 % 16), hexDigit (v / 256 % 16), hexDigit (v / 16 % 16), hexDigit (v % 16)]

/-- The `\uXXXX` escape(s) for a character: a single escape below U+10000,
a surrogate pair above (CPython `py_encode_basestring_ascii`). -/
def uEscape (c : Char) : List Char :=
  if c.toNat < 0x10000 then '\\' :: 'u' :: hex4 c.toNat
  else
    ('\\' :: 'u' :: hex4 (0xd800 + (c.toNat - 0x10000) / 0x400)) ++
    ('\\' :: 'u' :: hex4 (0xdc00 + (c.toNat - 0x10000) % 0x400))

/-- Encoding of one character inside a JSON string, `ensure_ascii=True`:
`"` and `\` and the classic control characters get short escapes, printable
ASCII passes through, everything else becomes `\uXXXX`. -/
def escCharL (c : Char) : List Char :=
  if c = '"' then ['\\', '"']
  else if c = '\\' then ['\\', '\\']
  else if c = '\x08' then ['\\', 'b']
  else if c = '\x0c' then ['\\', 'f']
  else if c = '\n' then ['\\', 'n']
  else if c = '\r' then ['\\', 'r']
  else if c = '\t' then ['\\', 't']
  else if c.toNat < 0x20 ∨ 0x7e < c.toNat then uEscape c
  else [c]

/-- JSON encoding of a string, with surrounding quotes. -/
def encodeStringL (s : String) : List Char :=
  '"' :: (s.data.map escCharL).flatten ++ ['"']

mutual

/-- `json.dumps` of a value, as a character list.  Default separators:
`", "` between items, `": "` after keys. -/
def jsonDumpsL : JValue → List Char
  | .null => "null".data
  | .bool true => "true".data
  | .bool false => "false".data
  | .num n => intDigits n
  | .str s => encodeStringL s
  | .arr l => '[' :: dumpElemsL l ++ [']']
  | .obj l => '{' :: dumpMembersL l ++ ['}']
termination_by structural v => v

/-- The comma-separated element list of a JSON array. -/
def dumpElemsL : List JValue → List Char
  | [] => []
  | [v] => jsonDumpsL v
  | v :: rest => jsonDumpsL v ++ ',' :: ' ' :: dumpElemsL rest
termination_by structural l => l

/-- The comma-separated member list of a JSON object. -/
def dumpMembersL : List (String × JValue) → List Char
  | [] => []
  | [(k, v)] => encodeStringL k ++ ':' :: ' ' :: jsonDumpsL v
  | (k, v) :: rest => encodeStringL k ++ ':' :: ' ' :: jsonDumpsL v ++ ',' :: ' ' :: dumpMembersL rest
termination_by structural l => l

end

/-- `json.dumps` of a value (string form). -/
def jsonDumps (v : JValue) : String := String.mk (jsonDumpsL v)

/-! ### The JSON parser (`json.loads` on the same fragment) -/

/-- Value of a hexadecimal digit character (either case accepted). -/
def hexVal? (c : Char) : Option Nat :=
  if c.isDigit then some (c.toNat - 48)
  else if 'a' ≤ c ∧ c ≤ 'f' then some (c.toNat - 87)
  else if 'A' ≤ c ∧ c ≤ 'F' then some (c.toNat - 55)
  else none

/-- The character denoted by a single-character escape `\c`. -/
def unescChar? (c : Char) : Option Char :=
  if c = '"' then some '"'
  else if c = '\\' then some '\\'
  else if c = '/' then some '/'
  else if c = 'b' then some '\x08'
  else if c = 'f' then some '\x0c'
  else if c = 'n' then some '\n'
  else if c = 'r' then some '\r'
  else if c = 't' then some '\t'
  else none

/-- Drop leading JSON whitespace. -/
def skipWs : List Char → List Char
  | [] => []
  | c :: cs => if c = ' ' ∨ c = '\t' ∨ c = '\n' ∨ c = '\r' then skipWs cs else c :: cs

/-- Decode the escape sequence following a backslash: one-character
escapes, or `\uXXXX` (a high surrogate must be followed by a low
surrogate, the pair decoding to one character; a lone surrogate, which
CPython would turn into a surrogate `str` that has no Lean counterpart
and which `jsonDumps` never emits, is rejected). -/
def parseEsc : List Char → Option (Char × List Char)
  | 'u' :: h1 :: h2 :: h3 :: h4 :: rest =>
    match hexVal? h1, hexVal? h2, hexVal? h3, hexVal? h4 with
    | some a, some b, some d, some e =>
      if 0xd800 ≤ ((a * 16 + b) * 16 + d) * 16 + e ∧
          ((a * 16 + b) * 16 + d) * 16 + e ≤ 0xdbff then
        match rest with
        | '\\' :: 'u' :: k1 :: k2 :: k3 :: k4 :: rest2 =>
          match hexVal? k1, hexVal? k2, hexVal? k3, hexVal? k4 with
          | some a2, some b2, some d2, some e2 =>
            if 0xdc00 ≤ ((a2 * 16 + b2) * 16 + d2) * 16 + e2 ∧
                ((a2 * 16 + b2) * 16 + d2) * 16 + e2 ≤ 0xdfff then
              some (Char.ofNat (0x10000 +
                (((a * 16 + b) * 16 + d) * 16 + e - 0xd800) * 0x400 +
                (((a2 * 16 + b2) * 16 + d2) * 16 + e2 - 0xdc00)), rest2)
            else none
          | _, _, _, _ => none
        | _ => none
      else if 0xdc00 ≤ ((a * 16 + b) * 16 + d) * 16 + e ∧
          ((a * 16 + b) * 16 + d) * 16 + e ≤ 0xdfff then none
      else some (Char.ofNat (((a * 16 + b) * 16 + d) * 16 + e), rest)
    | _, _, _, _ => none
  | e :: rest =>
    (match unescChar? e with
     | some c2 => some (c2, rest)
     | none => none)
  | [] => none

/-- Parse the body of a JSON string (opening quote consumed).  The fuel
only makes the recursion structural; any value above the input length is
sufficient, since every step consumes at least one input character. -/
def parseSB : Nat → List Char → Option (List Char × List Char)
  | 0, _ => none
  | _ + 1, [] => none
  | fuel + 1, c :: cs =>
    if c = '"' then some ([], cs)
    else if c = '\\' then
      match parseEsc cs with
      | some (c2, rest) => (parseSB fuel rest).map (fun p => (c2 :: p.1, p.2))
      | none => none
    else if c.toNat < 0x20 then none
    else (parseSB fuel cs).map (fun p => (c :: p.1, p.2))

/-- Split off the maximal leading run of decimal digits. -/
def takeDigits : List Char → List Char × List Char
  | [] => ([], [])
  | c :: cs =>
    if c.isDigit then
      let p := takeDigits cs
      (c :: p.1, p.2)
    else ([], c :: cs)

/-- Parse a nonempty run of decimal digits into a natural number. -/
def parseDigits (cs : List Char) : Option (Nat × List Char) :=
  match takeDigits cs with
  | ([], _) => none
  | (ds, rest) => some (foldDigits ds, rest)

mutual

/-- Parse one JSON value.  The fuel bounds the nesting of containers; the
top-level entry point supplies more fuel than any input can consume. -/
def parseValue : Nat → List Char → Option (JValue × List Char)
  | 0, _ => none
  | _ + 1, [] => none
  | fuel + 1, c :: rest =>
    if c = 'n' then
      match rest with
      | 'u' :: 'l' :: 'l' :: r => some (.null, r)
      | _ => none
    else if c = 't' then
      match rest with
      | 'r' :: 'u' :: 'e' :: r => some (.bool true, r)
      | _ => none
    else if c = 'f' then
      match rest with
      | 'a' :: 'l' :: 's' :: 'e' :: r => some (.bool false, r)
      | _ => none
    else if c = '"' then
      (parseSB (rest.length + 1) rest).map fun p => (.str (String.mk p.1), p.2)
    else if c = '{' then
      match skipWs rest with
      | '}' :: r => some (.obj [], r)
      | r => (parseMembers fuel r).map fun p => (.obj p.1, p.2)
    else if c = '[' then
      match skipWs rest with
      | ']' :: r => some (.arr [], r)
      | r => (parseElems fuel r).map fun p => (.arr p.1, p.2)
    else if c = '-' then
      (parseDigits rest).map fun p => (.num (-(p.1 : Int)), p.2)
    else if c.isDigit then
      (parseDigits (c :: rest)).map fun p => (.num (p.1 : Int), p.2)
    else none

/-- Parse the nonempty member list of a JSON object, consuming the closing
brace. -/
def parseMembers : Nat → List Char → Option (List (String × JValue) × List Char)
  | 0, _ => none
  | fuel + 1, cs =>
    match cs with
    | '"' :: rest =>
      match parseSB (rest.length + 1) rest with
      | none => none
      | some (k, r1) =>
        match skipWs r1 with
        | ':' :: r2 =>
          match parseValue fuel (skipWs r2) with
          | none => none
          | some (v, r3) =>
            match skipWs r3 with
            | ',' :: r4 => (parseMembers fuel (skipWs r4)).map fun p => ((String.mk k, v) :: p.1, p.2)
            | '}' :: r4 => some ([(String.mk k, v)], r4)
            | _ => none
        | _ => none
    | _ => none

/-- Parse the nonempty element list of a JSON array, consuming the closing
bracket. -/
def parseElems : Nat → List Char → Option (List JValue × List Char)
  | 0, _ => none
  | fuel + 1, cs =>
    match parseValue fuel cs with
    | none => none
    | some (v, r1) =>
      match skipWs r1 with
      | ',' :: r2 => (parseElems fuel (skipWs r2)).map fun p => (v :: p.1, p.2)
      | ']' :: r2 => some ([v], r2)
      | _ => none

end

/-- `json.loads`: parse one value, allowing surrounding whitespace and
requiring the whole input to be consumed. -/
def parseJson (s : String) : Option JValue :=
  match parseValue (s.data.length + 1) (skipWs s.data) with
  | some (v, rest) => if (skipWs rest).isEmpty then some v else none
  | none => none

/-! ### The record store (`server.py` / `app.py`, identical logic)

A row of the `candidates` table.  The TEXT columns are `Option String`
(NULL-able), `ratings` holds the serialized JSON text, `consented` is the
INTEGER column (`DEFAULT 0`).  The store is the table: a list of rows in
insertion order, with `id` the primary key. -/

structure Row where
  id : String
  created_at : String
  self_reflection : Option String
  ratings : Option String
  conclusion : Option String
  notes : Option String
  star_notes : Option String
  vesier_notes : Option String
  reflection_consistency : Option String
  consented : Int
  consent_date : Option String
  deriving DecidableEq, Repr

/-- The candidate object `row_to_dict` / `dict_from_row` builds for the API:
`ratings` deserialized, `consented` a boolean. -/
structure Candidate where
  id : String
  created_at : String
  self_reflection : Option String
  ratings : Option JValue
  conclusion : Option String
  notes : Option String
  star_notes : Option String
  vesier_notes : Option String
  reflection_consistency : Option String
  consented : Bool
  consent_date : Option String

/-- A freshly inserted row: only `id` and `created_at` populated,
`consented` takes the column default 0. -/
def blankRow (cid created : String) : Row :=
  { id := cid, created_at := created, self_reflection := none, ratings := none,
    conclusion := none, notes := none, star_notes := none, vesier_notes := none,
    reflection_consistency := none, consented := 0, consent_date := none }

/-- The update allow-list (`allowed_fields` in both implementations). -/
def allowed_fields : List String :=
  ["self_reflection", "ratings", "conclusion", "notes", "star_notes",
   "vesier_notes", "reflection_consistency", "consented", "consent_date"]

/-- Python truthiness (`bool(v)`) of a JSON value. -/
def jTruthy : JValue → Bool
  | .null => false
  | .bool b => b
  | .num n => n != 0
  | .str s => s != ""
  | .arr l => !l.isEmpty
  | .obj l => !l.isEmpty

/-- The value a scalar JSON value stores into a TEXT-affinity column when
bound as a parameter: `None` stores NULL, booleans bind as the integers 0/1
and numbers as integers, which TEXT affinity converts to their decimal
text; strings store as themselves.  Arrays and objects cannot be bound
(`sqlite3` raises); on those this function's result is never used — see
`valueBindable`. -/
def bindText : JValue → Option String
  | .null => none
  | .bool b => some (if b then "1" else "0")
  | .num n => some (String.mk (intDigits n))
  | .str s => some s
  | .arr _ => none
  | .obj _ => none

/-- Whether `sqlite3` can bind the value produced for this key: the
`ratings` value is serialized to a string first and `consented` is
normalized to 0/1, so those always bind; for the plain columns only
scalars bind, a list or dict raises `sqlite3.ProgrammingError`. -/
def valueBindable (k : String) (v : JValue) : Bool :=
  if k = "ratings" ∨ k = "consented" then true
  else
    match v with
    | .arr _ => false
    | .obj _ => false
    | _ => true

/-- Effect of one `key = ?` item of the SET clause on the row:
`ratings` is JSON-encoded unless `None`, `consented` is normalized to
`1 if value else 0`, the remaining allowed columns store the bound value.
(Keys outside the allow-list never reach this function.) -/
def setField (r : Row) (k : String) (v : JValue) : Row :=
  if k = "ratings" then
    { r with ratings := match v with | .null => none | _ => some (jsonDumps v) }
  else if k = "consented" then
    { r with consented := if jTruthy v then 1 else 0 }
  else if k = "self_reflection" then { r with self_reflection := bindText v }
  else if k = "conclusion" then { r with conclusion := bindText v }
  else if k = "notes" then { r with notes := bindText v }
  else if k = "star_notes" then { r with star_notes := bindText v }
  else if k = "vesier_notes" then { r with vesier_notes := bindText v }
  else if k = "reflection_consistency" then { r with reflection_consistency := bindText v }
  else if k = "consent_date" then { r with consent_date := bindText v }
  else r

/-- Apply the filtered updates in payload order (the `updates` dict
preserves insertion order; a repeated key keeps the last value, which the
left-to-right fold reproduces). -/
def applyUpdates (r : Row) (us : List (String × JValue)) : Row :=
  us.foldl (fun r kv => setField r kv.1 kv.2) r

inductive UpdateResult where
  /-- `{'status': 'updated'}`, HTTP 200. -/
  | updated
  /-- `{'error': 'No valid fields to update'}`, HTTP 400. -/
  | noValidFields
  /-- `sqlite3` refused to bind a non-scalar parameter; the unhandled
  exception surfaces as HTTP 500.  Nothing is written. -/
  | bindError
  deriving DecidableEq, Repr

/-- `update_candidate` / `do_PUT`: filter the payload against the
allow-list, reject an empty remainder with a 400, otherwise run
`UPDATE candidates SET ... WHERE id = ?` — every row whose id matches
(zero or one, id being the primary key) has the named fields replaced. -/
def update_candidate (st : List Row) (cid : String) (payload : List (String × JValue)) :
    List Row × UpdateResult :=
  let updates := payload.filter (fun kv => allowed_fields.contains kv.1)
  if updates.isEmpty then (st, .noValidFields)
  else if !(updates.all fun kv => valueBindable kv.1 kv.2) then (st, .bindError)
  else (st.map (fun r => if r.id = cid then applyUpdates r updates else r), .updated)

inductive DeleteResult where
  /-- `{'status': 'deleted'}` — the delete endpoint reports success
  unconditionally. -/
  | deleted
  deriving DecidableEq, Repr

/-- `delete_candidate` / `do_DELETE`: `DELETE FROM candidates WHERE id = ?`
and an unconditional success response. -/
def delete_candidate (st : List Row) (cid : String) : List Row × DeleteResult :=
  (st.filter (fun r => !(r.id == cid)), .deleted)

inductive CreateResult where
  /-- `{'id': ..., 'created_at': ...}`, HTTP 201. -/
  | created
  /-- The INSERT hit the primary-key constraint (generated id collides);
  the unhandled `sqlite3.IntegrityError` surfaces as HTTP 500. -/
  | storeError
  deriving DecidableEq, Repr

/-- `create_candidate` / `do_POST`: insert a blank row under a freshly
generated id. -/
def create_candidate (st : List Row) (cid created : String) : List Row × CreateResult :=
  if st.any (fun r => r.id == cid) then (st, .storeError)
  else (st ++ [blankRow cid created], .created)

/-- `row_to_dict` / `dict_from_row`: `ratings` is `json.loads(ratings) if
ratings else None` (NULL and the empty string are falsy), `consented` is
`bool(consented)`.  Returns `none` when `json.loads` raises (text that is
not valid JSON — never produced by the operations above). -/
def row_to_dict (r : Row) : Option Candidate :=
  let mk : Option JValue → Candidate := fun rat =>
    { id := r.id, created_at := r.created_at, self_reflection := r.self_reflection,
      ratings := rat, conclusion := r.conclusion, notes := r.notes,
      star_notes := r.star_notes, vesier_notes := r.vesier_notes,
      reflection_consistency := r.reflection_consistency,
      consented := r.consented != 0, consent_date := r.consent_date }
  match r.ratings with
  | none => some (mk none)
  | some s =>
      if s = "" then some (mk none)
      else
        match parseJson s with
        | some v => some (mk (some v))
        | none => none

inductive GetResult where
  /-- `{'error': 'Candidate not found'}`, HTTP 404. -/
  | notFound
  /-- The full candidate object, HTTP 200. -/
  | ok (c : Candidate)
  /-- `row_to_dict` raised (unparsable `ratings` text), HTTP 500. -/
  | serverError

/-- `get_candidate` / `do_GET` on `/api/candidates/<id>`:
`SELECT * ... WHERE id = ?`, `fetchone`, `row_to_dict`. -/
def get_candidate (st : List Row) (cid : String) : GetResult :=
  match st.find? (fun r => r.id == cid) with
  | none => .notFound
  | some r =>
      match row_to_dict r with
      | some c => .ok c
      | none => .serverError

/-! ### The identifier generator -/

/-- Python `f"{n:05d}"` for `n ≥ 0`: the decimal digits, zero-padded on the
left to width 5 (longer numbers are kept whole). -/
def pad5L (n : Nat) : List Char :=
  List.replicate (5 - (natDigits n).length) '0' ++ natDigits n

/-- `generate_candidate_id`: `f"BW-{year}-{number:05d}"`, where `year` is
`datetime.now().year` and `number` is `random.randint(0, 99999)` — both
passed in as parameters of the embedding. -/
def generate_candidate_id (year n : Nat) : String :=
  "BW-" ++ String.mk (natDigits year) ++ "-" ++ String.mk (pad5L n)

/-! ### The report renderer (`build_html` in `server.py`) -/

/-- The `esc` helper of `build_html`: `val if val else '–'` — `None` and
the empty string show as the placeholder dash, everything else verbatim
(no HTML escaping happens here). -/
def esc : Option String → String
  | none => "–"
  | some s => if s = "" then "–" else s

/-- Python `str()` of a loaded JSON value, as interpolated into a rating
cell.  Scalars are rendered exactly as Python renders them; for a nested
list/dict Python would interpolate its `repr`, which no claim reaches —
those are modelled by their JSON text. -/
def pyStr : JValue → String
  | .null => "None"
  | .bool true => "True"
  | .bool false => "False"
  | .num n => String.mk (intDigits n)
  | .str s => s
  | v => jsonDumps v

/-- The `ratings_rows` accumulation loop of `build_html`. -/
def ratings_rows : List (String × JValue) → String
  | [] => ""
  | (dim, rating) :: rest =>
      "<tr><td>" ++ dim ++ "</td><td>" ++ pyStr rating ++ "</td></tr>" ++ ratings_rows rest

/-- `ratings = candidate.get('ratings') or {}` followed by `.items()`:
a missing/`None`/falsy value yields the empty dict; a truthy non-dict
value (reachable, since updates serialize arbitrary JSON) makes
`.items()` raise `AttributeError` (`none` here). -/
def ratingsForRender : Option JValue → Option (List (String × JValue))
  | none => some []
  | some (.obj l) => some l
  | some v => if jTruthy v then none else some []

def htmlA : String := "\n    <!DOCTYPE html>\n    <html lang=\"de\">\n    <head>\n        <meta charset=\"utf-8\">\n        <title>Bewerberauswertung "

def htmlB : String := "</title>\n        <style>\n            body \x7b font-family: Arial, sans-serif; padding: 40px; \x7d\n            h1 \x7b color: #2563eb; \x7d\n            table \x7b width: 100%; border-collapse: collapse; margin-top: 20px; \x7d\n            th, td \x7b border: 1px solid #ddd; padding: 8px; \x7d\n            th \x7b background-color: #f2f2f2; text-align: left; \x7d\n            .section \x7b margin-top: 30px; \x7d\n        </style>\n    </head>\n    <body>\n        <h1>Auswertung für Bewerber "

def htmlC : String := "</h1>\n        <p>Erstellt am "

def htmlD : String := "</p>\n        <div class=\"section\">\n            <h2>Selbstreflexion</h2>\n            <p>"

/-- Segment ending in the ratings table header row and the whitespace
before the interpolated `{ratings_rows}`. -/
def htmlE : String := "</p>\n        </div>\n        <div class=\"section\">\n            <h2>Bewertung (1–5)</h2>\n            <table>\n                <tr><th>Dimension</th><th>Bewertung</th></tr>\n                "

def htmlF : String := "\n            </table>\n        </div>\n        <div class=\"section\">\n            <h2>Notizen</h2>\n            <p>"

def htmlG : String := "</p>\n        </div>\n        <div class=\"section\">\n            <h2>STAR‑Notizen</h2>\n            <p>"

def htmlH : String := "</p>\n        </div>\n        <div class=\"section\">\n            <h2>VeSiEr‑Notizen</h2>\n            <p>"

def htmlI : String := "</p>\n        </div>\n        <div class=\"section\">\n            <h2>Fazit</h2>\n            <p>"

def htmlJ : String := "</p>\n        </div>\n    </body>\n    </html>\n    "

/-- `build_html(candidate)`: the f-string document with the candidate's
fields interpolated.  `none` models the `AttributeError` raised by
`.items()` on a truthy non-dict `ratings`. -/
def build_html (c : Candidate) : Option String :=
  match ratingsForRender c.ratings with
  | none => none
  | some l =>
      some (htmlA ++ c.id ++ htmlB ++ c.id ++ htmlC ++ c.created_at ++ htmlD
        ++ esc c.self_reflection ++ htmlE ++ ratings_rows l ++ htmlF ++ esc c.notes
        ++ htmlG ++ esc c.star_notes ++ htmlH ++ esc c.vesier_notes ++ htmlI
        ++ esc c.conclusion ++ htmlJ)

/-! ### The PDF export pipeline (`server.py`)

The filesystem effects are modelled by which of the two scoped temporary
files currently exist; the external Chromium invocation is a parameter
(`chromiumOk`): `true` means `subprocess.run(cmd, check=True)` returns,
`false` means it raises (binary missing, non-zero exit, timeout). -/

structure TempFs where
  /-- The `tempfile.NamedTemporaryFile(suffix='.html', delete=False)` file. -/
  htmlFile : Bool
  /-- The `tempfile.NamedTemporaryFile(suffix='.pdf', delete=False)` file. -/
  pdfFile : Bool
  deriving DecidableEq, Repr

/-- `generate_pdf_from_html`: write the HTML to a temp file, run Chromium,
then `os.unlink` the HTML file.  The unlink is sequenced *after*
`subprocess.run` with no `try/finally`: when the subprocess raises, the
exception propagates and the HTML file is never deleted.  Returns the
filesystem and whether the call returned normally. -/
def generate_pdf_from_html (chromiumOk : Bool) (fs : TempFs) : TempFs × Bool :=
  let fs1 : TempFs := { fs with htmlFile := true }
  if chromiumOk then
    let fs2 : TempFs := { fs1 with pdfFile := true }
    ({ fs2 with htmlFile := false }, true)
  else
    (fs1, false)

/-- The export branch of `CandidateServer.do_POST` after the candidate is
fetched and rendered: create the PDF temp file, call
`generate_pdf_from_html` inside `try/except`, and on success read the
bytes, unlink the PDF and respond 200; on exception respond 500 and
return — without unlinking either temp file. -/
def export_pdf (chromiumOk : Bool) : TempFs × Bool :=
  let fs0 : TempFs := { htmlFile := false, pdfFile := false }
  let fs1 : TempFs := { fs0 with pdfFile := true }
  match generate_pdf_from_html chromiumOk fs1 with
  | (fs2, false) => (fs2, false)
  | (fs2, true) => ({ fs2 with pdfFile := false }, true)

/-- The export route of `app.py` (`export_candidate`): the PDF is written
to `/tmp/{candidate_id}.pdf` and, after `send_file`, the handler returns
without ever deleting it; on a generation failure the handler returns 500,
and whether the file exists depends on how far the renderer got
(parameter `pdfWritten`).  Result: does the temp PDF still exist, and did
the call succeed. -/
def export_candidate_app (pdfOk pdfWritten : Bool) : Bool × Bool :=
  if pdfOk then (true, true) else (pdfWritten, false)

/-! ### Auxiliary notions used by the claims -/

/-- Is the value a flat string-to-number mapping (the shape §3 of the spec
declares for `ratings`)? -/
def isFlatStringNumMap : JValue → Bool
  | .obj l => l.all fun kv => match kv.2 with | .num _ => true | _ => false
  | _ => false

/-- A ratings mapping (dimension name to integer score) as the JSON object
the HTTP layer delivers. -/
def ratingsObj (m : List (String × Int)) : JValue :=
  .obj (m.map fun p => (p.1, .num p.2))

/-- Does the update payload name this field? -/
def payloadHasKey (payload : List (String × JValue)) (k : String) : Bool :=
  payload.any fun kv => kv.1 == k

/-- Is the first list a prefix of the second? -/
def startsWithL : List Char → List Char → Bool
  | [], _ => true
  | _ :: _, [] => false
  | n :: ns, h :: hs => n == h && startsWithL ns hs

/-- Does the needle occur as a contiguous substring of the haystack? -/
def hasSub (needle : List Char) : List Char → Bool
  | [] => needle.isEmpty
  | h :: t => startsWithL needle (h :: t) || hasSub needle t

/-- Syntactic well-formedness of a candidate id for a given year:
`"BW-" ++ str(year) ++ "-"` followed by exactly five decimal digits. -/
def wellFormedId (year : Nat) (s : String) : Bool :=
  let pre := 'B' :: 'W' :: '-' :: (natDigits year ++ ['-'])
  startsWithL pre s.data &&
    (let suf := s.data.drop pre.length
     suf.length == 5 && suf.all Char.isDigit)

/-- The candidate used to exhibit unescaped markup in the rendered HTML. -/
def injectionCandidate : Candidate :=
  { id := "BW-2025-00001", created_at := "2025-01-01T00:00:00",
    self_reflection := none, ratings := none, conclusion := none,
    notes := some "<script>alert(1)</script>", star_notes := none,
    vesier_notes := none, reflection_consistency := none,
    consented := false, consent_date := none }

/-! ### Reachable store states -/

/-- Store states reachable through the public operations, starting from
the empty table: create (with a well-formed generated id), update with an
arbitrary JSON payload, delete. -/
inductive Reachable : List Row → Prop
  | init : Reachable []
  | create {st} (year n : Nat) (created : String) (hn : n ≤ 99999) :
      Reachable st → Reachable (create_candidate st (generate_candidate_id year n) created).1
  | update {st} (cid : String) (payload : List (String × JValue)) :
      Reachable st → Reachable (update_candidate st cid payload).1
  | delete {st} (cid : String) :
      Reachable st → Reachable (delete_candidate st cid).1

/-- Store states reachable when every update's `ratings` value (if any) is
`null` or a flat string-to-number mapping — the payloads the spec's data
model describes. -/
inductive ReachableFlat : List Row → Prop
  | init : ReachableFlat []
  | create {st} (year n : Nat) (created : String) (hn : n ≤ 99999) :
      ReachableFlat st → ReachableFlat (create_candidate st (generate_candidate_id year n) created).1
  | update {st} (cid : String) (payload : List (String × JValue))
      (hflat : ∀ kv ∈ payload, kv.1 = "ratings" →
        kv.2 = .null ∨ isFlatStringNumMap kv.2 = true) :
      ReachableFlat st → ReachableFlat (update_candidate st cid payload).1
  | delete {st} (cid : String) :
      ReachableFlat st → ReachableFlat (delete_candidate st cid).1

/-- Every record's serialized `ratings`, when present, deserializes to a
flat string-to-number mapping. -/
def RatingsWellFormed (st : List Row) : Prop :=
  ∀ r ∈ st, ∀ s, r.ratings = some s →
    ∃ v, parseJson s = some v ∧ isFlatStringNumMap v = true

/-! ## Helper lemmas: decimal digits -/

theorem natDigitsAux_fuel (f1 : Nat) : ∀ (f2 n : Nat), n < f1 → n < f2 →
    natDigitsAux f1 n = natDigitsAux f2 n := by
  induction f1 with
  | zero => intro f2 n h1 _; omega
  | succ f ih =>
    intro f2 n h1 h2
    cases f2 with
    | zero => omega
    | succ g =>
      by_cases h : n < 10
      · simp [natDigitsAux, h]
      · have hd : n / 10 < n := Nat.div_lt_self (by omega) (by omega)
        simp only [natDigitsAux, if_neg h]
        rw [ih g (n / 10) (by omega) (by omega)]

theorem natDigits_lt {n : Nat} (h : n < 10) : natDigits n = [digitChar n] := by
  simp [natDigits, natDigitsAux, h]

theorem natDigits_ge {n : Nat} (h : ¬ n < 10) :
    natDigits n = natDigits (n / 10) ++ [digitChar (n % 10)] := by
  have hd : n / 10 < n := Nat.div_lt_self (by omega) (by omega)
  conv_lhs => simp only [natDigits, natDigitsAux]
  rw [if_neg h, natDigitsAux_fuel n (n / 10 + 1) (n / 10) (by omega) (by omega)]
  rfl

theorem digitChar_isDigit {d : Nat} (h : d < 10) : (digitChar d).isDigit = true := by
  interval_cases d <;> decide

theorem natDigits_ne_nil (n : Nat) : natDigits n ≠ [] := by
  by_cases h : n < 10
  · simp [natDigits_lt h]
  · simp [natDigits_ge h]

theorem natDigits_all_digit (n : Nat) : ∀ c ∈ natDigits n, c.isDigit = true := by
  induction n using Nat.strong_induction_on with
  | _ n ih =>
    by_cases h : n < 10
    · rw [natDigits_lt h]
      intro c hc
      simp at hc
      subst hc
      exact digitChar_isDigit h
    · rw [natDigits_ge h]
      intro c hc
      rcases List.mem_append.mp hc with hc | hc
      · exact ih (n / 10) (Nat.div_lt_self (by omega) (by omega)) c hc
      · simp at hc
        subst hc
        exact digitChar_isDigit (Nat.mod_lt _ (by omega))

theorem digitVal_digitChar {d : Nat} (h : d < 10) : digitVal (digitChar d) = d := by
  interval_cases d <;> decide

theorem foldDigits_append (ds : List Char) (c : Char) :
    foldDigits (ds ++ [c]) = foldDigits ds * 10 + digitVal c := by
  simp [foldDigits, List.foldl_append]

theorem foldDigits_natDigits (n : Nat) : foldDigits (natDigits n) = n := by
  induction n using Nat.strong_induction_on with
  | _ n ih =>
    by_cases h : n < 10
    · rw [natDigits_lt h]
      simp [foldDigits, digitVal_digitChar h]
    · rw [natDigits_ge h, foldDigits_append,
        ih (n / 10) (Nat.div_lt_self (by omega) (by omega)),
        digitVal_digitChar (Nat.mod_lt _ (by omega))]
      omega

/-! ## Helper lemmas: branches of `update_candidate` -/

theorem update_candidate_noValid {st : List Row} {cid : String}
    {payload : List (String × JValue)}
    (h : payload.filter (fun kv => allowed_fields.contains kv.1) = []) :
    update_candidate st cid payload = (st, .noValidFields) := by
  simp only [update_candidate, h]
  rfl

theorem update_candidate_updated {st : List Row} {cid : String}
    {payload : List (String × JValue)}
    (h1 : (payload.filter fun kv => allowed_fields.contains kv.1).isEmpty = false)
    (h2 : ((payload.filter fun kv => allowed_fields.contains kv.1).all
      fun kv => valueBindable kv.1 kv.2) = true) :
    update_candidate st cid payload =
      (st.map (fun r => if r.id = cid then
        applyUpdates r (payload.filter fun kv => allowed_fields.contains kv.1) else r),
       .updated) := by
  simp only [update_candidate]
  rw [h1, h2]
  simp

/-! ## Claim C1 — temporary-file cleanup in the export pipeline.

The claim asserts both temporary files are deleted on every exit path.
The code sequences the HTML unlink after `subprocess.run` with no
`try/finally`, and the 500 branch of the export route returns without
unlinking the PDF temp file; `app.py`'s variant never deletes its
`/tmp/{id}.pdf` at all. -/

/-- C1: when the Chromium invocation fails, the export of `server.py`
returns (reporting failure) with BOTH temporary files still existing on
the filesystem; and the `app.py` export leaves its temporary PDF behind
even on success.  This refutes the claimed guarantee of release on every
exit path. -/
theorem C1_export_leaves_orphaned_temp_files :
    export_pdf false = ({ htmlFile := true, pdfFile := true }, false) ∧
    export_candidate_app true true = (true, true) :=
  ⟨rfl, rfl⟩

/-! ## Claim C2 — HTML-escaping of candidate-supplied fields. -/

set_option maxRecDepth 8000 in
/-- C2: `build_html` interpolates candidate text verbatim — rendering a
candidate whose `notes` field is `<script>alert(1)</script>` succeeds and
the raw markup occurs, unescaped, in the produced HTML document.  This
refutes the claimed escaping (the renderer's `esc` only substitutes a
placeholder dash for empty values). -/
theorem C2_render_does_not_escape :
    (build_html injectionCandidate).isSome = true ∧
    hasSub "<script>alert(1)</script>".data
      ((build_html injectionCandidate).getD "").data = true := by
  exact ⟨rfl, by decide⟩

/-! ## Claim C4 — rendering with null/empty ratings. -/

/-- C4: for a candidate whose `ratings` is null or the empty mapping,
`build_html` succeeds, and the produced document is exactly the template
with nothing between the table's header row (the tail of `htmlE`) and the
closing `</table>` (the head of `htmlF`): the ratings table keeps its
header row and has zero data rows. -/
theorem C4_empty_ratings_renders_empty_table (c : Candidate)
    (h : c.ratings = none ∨ c.ratings = some (.obj [])) :
    build_html c =
      some (htmlA ++ c.id ++ htmlB ++ c.id ++ htmlC ++ c.created_at ++ htmlD
        ++ esc c.self_reflection ++ htmlE ++ htmlF ++ esc c.notes
        ++ htmlG ++ esc c.star_notes ++ htmlH ++ esc c.vesier_notes ++ htmlI
        ++ esc c.conclusion ++ htmlJ) ∧
    ratings_rows [] = "" ∧
    hasSub "<tr><th>Dimension</th><th>Bewertung</th></tr>".data htmlE.data = true := by
  refine ⟨?_, rfl, by decide⟩
  rcases h with h | h <;>
    simp [build_html, h, ratingsForRender, ratings_rows, String.append_empty]

/-- C4, witness: a blank candidate (null ratings) renders successfully. -/
theorem C4_witness :
    (build_html { id := "BW-2025-00001", created_at := "T", self_reflection := none,
                  ratings := none, conclusion := none, notes := none, star_notes := none,
                  vesier_notes := none, reflection_consistency := none, consented := false,
                  consent_date := none }).isSome = true := by
  rw [(C4_empty_ratings_renders_empty_table _ (Or.inl rfl)).1]
  rfl

/-! ## Claim C6 — update with no recognized field. -/

/-- C6: if no key of the payload belongs to the allow-list, the update
responds `No valid fields to update` (HTTP 400) and the store is returned
unchanged. -/
theorem C6_no_valid_fields_rejected (st : List Row) (cid : String)
    (payload : List (String × JValue))
    (h : ∀ kv ∈ payload, kv.1 ∉ allowed_fields) :
    update_candidate st cid payload = (st, .noValidFields) := by
  apply update_candidate_noValid
  rw [List.filter_eq_nil_iff]
  intro kv hkv
  simpa using h kv hkv

/-- C6, witness: updating an existing record with `{unknown_field: "x"}`
is rejected with `noValidFields` and the store is unchanged. -/
theorem C6_witness :
    update_candidate [blankRow "BW-2025-00001" "2025-01-01T00:00:00"] "BW-2025-00001"
        [("unknown_field", .str "x")]
      = ([blankRow "BW-2025-00001" "2025-01-01T00:00:00"], .noValidFields) :=
  C6_no_valid_fields_rejected _ _ _ (by decide)

/-! ## Claim C7 — update/delete on a nonexistent id. -/

/-- C7: when no record has the requested id, an update whose payload
contains at least one allow-listed field (with storable scalar values, the
payloads the JSON interface carries for these columns) reports
`updated`, and delete reports `deleted`; both leave the store exactly as
it was (zero rows affected). -/
theorem C7_missing_id_succeeds_without_effect (st : List Row) (cid : String)
    (payload : List (String × JValue))
    (hid : ∀ r ∈ st, r.id ≠ cid)
    (hvalid : payload.any (fun kv => allowed_fields.contains kv.1) = true)
    (hbind : (payload.filter fun kv => allowed_fields.contains kv.1).all
      (fun kv => valueBindable kv.1 kv.2) = true) :
    update_candidate st cid payload = (st, .updated) ∧
    delete_candidate st cid = (st, .deleted) := by
  constructor
  · have hne : (payload.filter fun kv => allowed_fields.contains kv.1).isEmpty = false := by
      rcases List.any_eq_true.mp hvalid with ⟨kv, hkv, hc⟩
      have hmem : kv ∈ payload.filter fun kv => allowed_fields.contains kv.1 :=
        List.mem_filter.mpr ⟨hkv, hc⟩
      rcases hfe : payload.filter fun kv => allowed_fields.contains kv.1 with _ | ⟨a, l⟩
      · rw [hfe] at hmem; simp at hmem
      · rw [hfe]; rfl
    rw [update_candidate_updated hne hbind,
      List.map_congr_left (fun r hr => if_neg (hid r hr))]
    simp
  · have : st.filter (fun r => !(r.id == cid)) = st := by
      rw [List.filter_eq_self]
      intro r hr
      simp [hid r hr]
    simp [delete_candidate, this]

/-- C7, witness: updating and deleting a missing id on a one-row store. -/
theorem C7_witness :
    update_candidate [blankRow "BW-2025-00001" "T"] "BW-2025-99999"
        [("notes", JValue.str "hi")]
      = ([blankRow "BW-2025-00001" "T"], .updated) ∧
    delete_candidate [blankRow "BW-2025-00001" "T"] "BW-2025-99999"
      = ([blankRow "BW-2025-00001" "T"], .deleted) :=
  C7_missing_id_succeeds_without_effect _ _ _ (by decide) (by decide) (by decide)

/-! ## Helper lemmas: the identifier generator -/

theorem natDigits_len_le : ∀ (n k : Nat), n < 10 ^ k → 0 < k → (natDigits n).length ≤ k := by
  intro n
  induction n using Nat.strong_induction_on with
  | _ n ih =>
    intro k hk hk0
    by_cases h : n < 10
    · rw [natDigits_lt h]
      simpa using hk0
    · match k with
      | 1 => simp at hk; omega
      | k' + 2 =>
        rw [natDigits_ge h]
        have hdiv : n / 10 < 10 ^ (k' + 1) := by
          apply Nat.div_lt_of_lt_mul
          calc n < 10 ^ (k' + 2) := hk
            _ = 10 * 10 ^ (k' + 1) := by ring
        have := ih (n / 10) (Nat.div_lt_self (by omega) (by omega)) (k' + 1) hdiv (by omega)
        simp only [List.length_append, List.length_cons, List.length_nil]
        omega

theorem foldDigits_replicate_zero (k : Nat) (ds : List Char) :
    foldDigits (List.replicate k '0' ++ ds) = foldDigits ds := by
  induction k with
  | zero => simp
  | succ m ih =>
    rw [List.replicate_succ, List.cons_append]
    show List.foldl _ ((0 : Nat) * 10 + digitVal '0') _ = _
    exact ih

theorem foldDigits_pad5L (n : Nat) : foldDigits (pad5L n) = n := by
  rw [pad5L, foldDigits_replicate_zero, foldDigits_natDigits]

theorem pad5L_length {n : Nat} (h : n ≤ 99999) : (pad5L n).length = 5 := by
  have hlen : (natDigits n).length ≤ 5 := natDigits_len_le n 5 (by omega) (by omega)
  simp only [pad5L, List.length_append, List.length_replicate]
  omega

theorem pad5L_all_digit (n : Nat) : ∀ c ∈ pad5L n, c.isDigit = true := by
  intro c hc
  rcases List.mem_append.mp hc with hc | hc
  · rw [List.eq_of_mem_replicate hc]; decide
  · exact natDigits_all_digit n c hc

theorem startsWithL_append (p rest : List Char) : startsWithL p (p ++ rest) = true := by
  induction p with
  | nil => rfl
  | cons c t ih => simp [startsWithL, ih]

theorem generate_candidate_id_data (year n : Nat) :
    (generate_candidate_id year n).data =
      ('B' :: 'W' :: '-' :: (natDigits year ++ ['-'])) ++ pad5L n := by
  show ("BW-" ++ String.mk (natDigits year) ++ "-" ++ String.mk (pad5L n)).data = _
  simp [String.data_append]

/-! ## Claim C3 — distinctness and well-formedness of generated ids.

`generate_candidate_id` draws `random.randint(0, 99999)` with no
uniqueness check against existing records (spec §4.1), so two `create()`
calls whose draws coincide produce the *same* id; the second INSERT then
dies on the primary-key constraint instead of yielding a second id.  The
unconditional distinctness asserted by the claim therefore fails; what
holds is distinctness exactly when the draws differ, together with
well-formedness. -/

/-- C3, counterexample: 437 is a legal `randint(0, 99999)` outcome, and
two `create()` calls that both draw it generate the identical id — the
second insert then fails on the primary key instead of producing a
distinct id.  This refutes the claim's unconditional distinctness. -/
theorem C3_counterexample :
    437 ≤ 99999 ∧
    generate_candidate_id 2025 437 = generate_candidate_id 2025 437 ∧
    (create_candidate
        (create_candidate [] (generate_candidate_id 2025 437) "T").1
        (generate_candidate_id 2025 437) "T").2 = .storeError :=
  ⟨by decide, rfl, by decide⟩

/-- C3, amended: for draws in `randint`'s range `[0, 99999]`, two
generated ids (same year) are equal exactly when the draws are equal — so
two `create()` calls yield distinct ids iff their draws differ — and
every generated id is well-formed: `BW-` followed by the year's digits,
a dash, and exactly five decimal digits. -/
theorem C3_id_generation (year n1 n2 : Nat) (h1 : n1 ≤ 99999) (h2 : n2 ≤ 99999) :
    (generate_candidate_id year n1 = generate_candidate_id year n2 ↔ n1 = n2) ∧
    wellFormedId year (generate_candidate_id year n1) = true := by
  constructor
  · constructor
    · intro heq
      have hdata := congrArg String.data heq
      rw [generate_candidate_id_data, generate_candidate_id_data] at hdata
      have hpad : pad5L n1 = pad5L n2 := List.append_cancel_left hdata
      have := congrArg foldDigits hpad
      rwa [foldDigits_pad5L, foldDigits_pad5L] at this
    · intro h; subst h; rfl
  · rw [wellFormedId]
    simp only [generate_candidate_id_data]
    rw [List.drop_left]
    have hpre := startsWithL_append ('B' :: 'W' :: '-' :: (natDigits year ++ ['-'])) (pad5L n1)
    simp only [List.cons_append, List.append_assoc, List.singleton_append,
      List.nil_append] at hpre ⊢
    simp only [hpre, pad5L_length h1, List.all_eq_true, true_and, beq_self_eq_true,
      Bool.and_self, Bool.true_and]
    exact pad5L_all_digit n1

/-- C3, witness: distinct draws 123 and 456 give distinct ids, and the id
for draw 123 is well-formed for year 2025. -/
theorem C3_witness :
    (generate_candidate_id 2025 123 = generate_candidate_id 2025 456 ↔ 123 = 456) ∧
    wellFormedId 2025 (generate_candidate_id 2025 123) = true :=
  C3_id_generation 2025 123 456 (by decide) (by decide)

/-! ## Helper lemmas: the JSON codec round-trips on the values the store
writes -/

theorem char_toNat_valid (c : Char) :
    c.toNat < 0xd800 ∨ (0xdfff < c.toNat ∧ c.toNat < 0x110000) := by
  have h := c.valid
  simp only [UInt32.isValidChar, Nat.isValidChar] at h
  exact h

theorem hexVal_hexDigit {d : Nat} (h : d < 16) : hexVal? (hexDigit d) = some d := by
  interval_cases d <;> decide

theorem parseEsc_u_single (v : Nat) (hv : v < 0x10000) (hs : v < 0xd800 ∨ 0xdfff < v)
    (x : List Char) :
    parseEsc ('u' :: hexDigit (v / 4096 % 16) :: hexDigit (v / 256 % 16) ::
      hexDigit (v / 16 % 16) :: hexDigit (v % 16) :: x) = some (Char.ofNat v, x) := by
  have e1 : hexVal? (hexDigit (v / 4096 % 16)) = some (v / 4096 % 16) :=
    hexVal_hexDigit (Nat.mod_lt _ (by omega))
  have e2 : hexVal? (hexDigit (v / 256 % 16)) = some (v / 256 % 16) :=
    hexVal_hexDigit (Nat.mod_lt _ (by omega))
  have e3 : hexVal? (hexDigit (v / 16 % 16)) = some (v / 16 % 16) :=
    hexVal_hexDigit (Nat.mod_lt _ (by omega))
  have e4 : hexVal? (hexDigit (v % 16)) = some (v % 16) :=
    hexVal_hexDigit (Nat.mod_lt _ (by omega))
  simp only [parseEsc, e1, e2, e3, e4]
  rw [show ((v / 4096 % 16 * 16 + v / 256 % 16) * 16 + v / 16 % 16) * 16 + v % 16 = v
      from by omega]
  rw [if_neg (by omega), if_neg (by omega)]

theorem parseEsc_u_pair (v : Nat) (hv1 : 0x10000 ≤ v) (hv2 : v < 0x110000) (x : List Char) :
    parseEsc ('u' ::
      hexDigit ((0xd800 + (v - 0x10000) / 0x400) / 4096 % 16) ::
      hexDigit ((0xd800 + (v - 0x10000) / 0x400) / 256 % 16) ::
      hexDigit ((0xd800 + (v - 0x10000) / 0x400) / 16 % 16) ::
      hexDigit ((0xd800 + (v - 0x10000) / 0x400) % 16) ::
      ('\\' :: 'u' ::
        hexDigit ((0xdc00 + (v - 0x10000) % 0x400) / 4096 % 16) ::
        hexDigit ((0xdc00 + (v - 0x10000) % 0x400) / 256 % 16) ::
        hexDigit ((0xdc00 + (v - 0x10000) % 0x400) / 16 % 16) ::
        hexDigit ((0xdc00 + (v - 0x10000) % 0x400) % 16) :: x)) = some (Char.ofNat v, x) := by
  have hdiv : (v - 0x10000) / 0x400 < 0x400 := by omega
  have hmod : (v - 0x10000) % 0x400 < 0x400 := Nat.mod_lt _ (by omega)
  have e1 : hexVal? (hexDigit ((0xd800 + (v - 0x10000) / 0x400) / 4096 % 16))
      = some ((0xd800 + (v - 0x10000) / 0x400) / 4096 % 16) :=
    hexVal_hexDigit (Nat.mod_lt _ (by omega))
  have e2 : hexVal? (hexDigit ((0xd800 + (v - 0x10000) / 0x400) / 256 % 16))
      = some ((0xd800 + (v - 0x10000) / 0x400) / 256 % 16) :=
    hexVal_hexDigit (Nat.mod_lt _ (by omega))
  have e3 : hexVal? (hexDigit ((0xd800 + (v - 0x10000) / 0x400) / 16 % 16))
      = some ((0xd800 + (v - 0x10000) / 0x400) / 16 % 16) :=
    hexVal_hexDigit (Nat.mod_lt _ (by omega))
  have e4 : hexVal? (hexDigit ((0xd800 + (v - 0x10000) / 0x400) % 16))
      = some ((0xd800 + (v - 0x10000) / 0x400) % 16) :=
    hexVal_hexDigit (Nat.mod_lt _ (by omega))
  have f1 : hexVal? (hexDigit ((0xdc00 + (v - 0x10000) % 0x400) / 4096 % 16))
      = some ((0xdc00 + (v - 0x10000) % 0x400) / 4096 % 16) :=
    hexVal_hexDigit (Nat.mod_lt _ (by omega))
  have f2 : hexVal? (hexDigit ((0xdc00 + (v - 0x10000) % 0x400) / 256 % 16))
      = some ((0xdc00 + (v - 0x10000) % 0x400) / 256 % 16) :=
    hexVal_hexDigit (Nat.mod_lt _ (by omega))
  have f3 : hexVal? (hexDigit ((0xdc00 + (v - 0x10000) % 0x400) / 16 % 16))
      = some ((0xdc00 + (v - 0x10000) % 0x400) / 16 % 16) :=
    hexVal_hexDigit (Nat.mod_lt _ (by omega))
  have f4 : hexVal? (hexDigit ((0xdc00 + (v - 0x10000) % 0x400) % 16))
      = some ((0xdc00 + (v - 0x10000) % 0x400) % 16) :=
    hexVal_hexDigit (Nat.mod_lt _ (by omega))
  simp only [parseEsc, e1, e2, e3, e4, f1, f2, f3, f4]
  rw [show (((0xd800 + (v - 0x10000) / 0x400) / 4096 % 16 * 16 +
        (0xd800 + (v - 0x10000) / 0x400) / 256 % 16) * 16 +
        (0xd800 + (v - 0x10000) / 0x400) / 16 % 16) * 16 +
        (0xd800 + (v - 0x10000) / 0x400) % 16
      = 0xd800 + (v - 0x10000) / 0x400 from by omega]
  rw [if_pos (by omega : 0xd800 ≤ 0xd800 + (v - 0x10000) / 0x400 ∧
        0xd800 + (v - 0x10000) / 0x400 ≤ 0xdbff)]
  rw [show (((0xdc00 + (v - 0x10000) % 0x400) / 4096 % 16 * 16 +
        (0xdc00 + (v - 0x10000) % 0x400) / 256 % 16) * 16 +
        (0xdc00 + (v - 0x10000) % 0x400) / 16 % 16) * 16 +
        (0xdc00 + (v - 0x10000) % 0x400) % 16
      = 0xdc00 + (v - 0x10000) % 0x400 from by omega]
  rw [if_pos (by omega : 0xdc00 ≤ 0xdc00 + (v - 0x10000) % 0x400 ∧
        0xdc00 + (v - 0x10000) % 0x400 ≤ 0xdfff)]
  rw [show 0x10000 + (0xd800 + (v - 0x10000) / 0x400 - 0xd800) * 0x400 +
        (0xdc00 + (v - 0x10000) % 0x400 - 0xdc00) = v from by omega]

theorem parseSB_backslash (fuel : Nat) (cs : List Char) :
    parseSB (fuel + 1) ('\\' :: cs) =
      match parseEsc cs with
      | some (c2, rest) => (parseSB fuel rest).map (fun p => (c2 :: p.1, p.2))
      | none => none :=
  rfl

theorem parseSB_escChar (c : Char) (fuel : Nat) (x : List Char) :
    parseSB (fuel + 1) (escCharL c ++ x) =
      (parseSB fuel x).map (fun p => (c :: p.1, p.2)) := by
  unfold escCharL
  split_ifs with h1 h2 h3 h4 h5 h6 h7 h8
  · subst h1; rfl
  · subst h2; rfl
  · subst h3; rfl
  · subst h4; rfl
  · subst h5; rfl
  · subst h6; rfl
  · subst h7; rfl
  · -- the `\uXXXX` escapes
    unfold uEscape
    have hval := char_toNat_valid c
    split_ifs with hlt
    · show parseSB (fuel + 1) ('\\' :: 'u' ::
        hexDigit (c.toNat / 4096 % 16) :: hexDigit (c.toNat / 256 % 16) ::
        hexDigit (c.toNat / 16 % 16) :: hexDigit (c.toNat % 16) :: x) = _
      rw [parseSB_backslash, parseEsc_u_single c.toNat hlt (by omega) x, Char.ofNat_toNat]
    · show parseSB (fuel + 1) ('\\' :: 'u' ::
        hexDigit ((0xd800 + (c.toNat - 0x10000) / 0x400) / 4096 % 16) ::
        hexDigit ((0xd800 + (c.toNat - 0x10000) / 0x400) / 256 % 16) ::
        hexDigit ((0xd800 + (c.toNat - 0x10000) / 0x400) / 16 % 16) ::
        hexDigit ((0xd800 + (c.toNat - 0x10000) / 0x400) % 16) ::
        ('\\' :: 'u' ::
          hexDigit ((0xdc00 + (c.toNat - 0x10000) % 0x400) / 4096 % 16) ::
          hexDigit ((0xdc00 + (c.toNat - 0x10000) % 0x400) / 256 % 16) ::
          hexDigit ((0xdc00 + (c.toNat - 0x10000) % 0x400) / 16 % 16) ::
          hexDigit ((0xdc00 + (c.toNat - 0x10000) % 0x400) % 16) :: x)) = _
      rw [parseSB_backslash, parseEsc_u_pair c.toNat (by omega) (by omega) x, Char.ofNat_toNat]
  · -- plain printable character
    show parseSB (fuel + 1) (c :: x) = _
    have hge : ¬ c.toNat < 0x20 := by omega
    simp only [parseSB, if_neg h1, if_neg h2, if_neg hge]

theorem escCharL_length_pos (c : Char) : 0 < (escCharL c).length := by
  unfold escCharL
  split_ifs <;> first
    | simp
    | (unfold uEscape; split_ifs <;> simp)

theorem flatten_escCharL_length (l : List Char) :
    l.length ≤ ((l.map escCharL).flatten).length := by
  induction l with
  | nil => simp
  | cons c t ih =>
    simp only [List.map_cons, List.flatten_cons, List.length_append, List.length_cons]
    have := escCharL_length_pos c
    omega

theorem parseSB_encode (l : List Char) : ∀ (fuel : Nat) (x : List Char), l.length < fuel →
    parseSB fuel ((l.map escCharL).flatten ++ '"' :: x) = some (l, x) := by
  induction l with
  | nil =>
    intro fuel x hf
    match fuel, hf with
    | f + 1, _ => rfl
  | cons c t ih =>
    intro fuel x hf
    cases fuel with
    | zero => omega
    | succ f =>
      simp only [List.map_cons, List.flatten_cons, List.append_assoc]
      rw [parseSB_escChar, ih f x (by simp at hf; omega)]
      rfl

theorem parseValue_quote (fuel : Nat) (rest : List Char) :
    parseValue (fuel + 1) ('"' :: rest) =
      (parseSB (rest.length + 1) rest).map (fun p => (.str (String.mk p.1), p.2)) :=
  rfl

theorem parseValue_str (fuel : Nat) (s : String) (x : List Char) :
    parseValue (fuel + 1) (encodeStringL s ++ x) = some (.str s, x) := by
  simp only [encodeStringL, List.cons_append, List.append_assoc, List.singleton_append,
    List.nil_append]
  rw [parseValue_quote, parseSB_encode s.data _ x
    (by have h := flatten_escCharL_length s.data
        rw [List.length_append, List.length_cons]
        omega)]
  rfl

theorem takeDigits_append (ds : List Char) (x : List Char)
    (hds : ∀ c ∈ ds, c.isDigit = true)
    (hx : ∀ c, x.head? = some c → c.isDigit = false) :
    takeDigits (ds ++ x) = (ds, x) := by
  induction ds with
  | nil =>
    cases x with
    | nil => rfl
    | cons c cs => simp [takeDigits, hx c rfl]
  | cons d t ih =>
    have hd : d.isDigit = true := hds d (List.mem_cons_self _ _)
    simp only [List.cons_append, takeDigits, hd, if_true, List.append_eq]
    rw [ih (fun c hc => hds c (List.mem_cons_of_mem _ hc))]

theorem parseDigits_natDigits (n : Nat) (x : List Char)
    (hx : ∀ c, x.head? = some c → c.isDigit = false) :
    parseDigits (natDigits n ++ x) = some (n, x) := by
  obtain ⟨d, ds, hds⟩ := List.exists_cons_of_ne_nil (natDigits_ne_nil n)
  rw [parseDigits, takeDigits_append _ _ (natDigits_all_digit n) hx, hds]
  show some (foldDigits (d :: ds), x) = _
  rw [← hds, foldDigits_natDigits]

theorem isDigit_not_ws {c : Char} (h : c.isDigit = true) :
    ¬(c = ' ' ∨ c = '\t' ∨ c = '\n' ∨ c = '\r') := by
  rintro (he | he | he | he) <;> (rw [he] at h; exact absurd h (by decide))

theorem skipWs_cons_not_ws {c : Char} (h : ¬(c = ' ' ∨ c = '\t' ∨ c = '\n' ∨ c = '\r'))
    (x : List Char) : skipWs (c :: x) = c :: x := by
  simp [skipWs, h]

theorem skipWs_intDigits (i : Int) (x : List Char) :
    skipWs (intDigits i ++ x) = intDigits i ++ x := by
  rw [intDigits]
  split_ifs with h
  · rfl
  · obtain ⟨d, ds, hds⟩ := List.exists_cons_of_ne_nil (natDigits_ne_nil i.toNat)
    have hd : d.isDigit = true :=
      natDigits_all_digit _ d (by rw [hds]; exact List.mem_cons_self _ _)
    rw [hds, List.cons_append, skipWs_cons_not_ws (isDigit_not_ws hd)]

theorem parseValue_digit (fuel : Nat) (c : Char) (cs : List Char) (h : c.isDigit = true) :
    parseValue (fuel + 1) (c :: cs) =
      (parseDigits (c :: cs)).map (fun p => (.num (p.1 : Int), p.2)) := by
  have h1 : ¬ c = 'n' := fun he => by rw [he] at h; exact absurd h (by decide)
  have h2 : ¬ c = 't' := fun he => by rw [he] at h; exact absurd h (by decide)
  have h3 : ¬ c = 'f' := fun he => by rw [he] at h; exact absurd h (by decide)
  have h4 : ¬ c = '"' := fun he => by rw [he] at h; exact absurd h (by decide)
  have h5 : ¬ c = '{' := fun he => by rw [he] at h; exact absurd h (by decide)
  have h6 : ¬ c = '[' := fun he => by rw [he] at h; exact absurd h (by decide)
  have h7 : ¬ c = '-' := fun he => by rw [he] at h; exact absurd h (by decide)
  simp only [parseValue, if_neg h1, if_neg h2, if_neg h3, if_neg h4, if_neg h5,
    if_neg h6, if_neg h7, if_pos h]

theorem parseValue_num (fuel : Nat) (i : Int) (x : List Char)
    (hx : ∀ c, x.head? = some c → c.isDigit = false) :
    parseValue (fuel + 1) (intDigits i ++ x) = some (.num i, x) := by
  rw [intDigits]
  split_ifs with hneg
  · rw [List.cons_append,
      show parseValue (fuel + 1) ('-' :: (natDigits i.natAbs ++ x)) =
        (parseDigits (natDigits i.natAbs ++ x)).map (fun p => (.num (-(p.1 : Int)), p.2))
        from rfl,
      parseDigits_natDigits _ _ hx]
    have hni : -((i.natAbs : Nat) : Int) = i := by omega
    simp only [Option.map_some']
    rw [hni]
  · obtain ⟨d, ds, hds⟩ := List.exists_cons_of_ne_nil (natDigits_ne_nil i.toNat)
    have hd : d.isDigit = true :=
      natDigits_all_digit _ d (by rw [hds]; exact List.mem_cons_self _ _)
    rw [hds, List.cons_append, parseValue_digit fuel d (ds ++ x) hd,
      ← List.cons_append, ← hds, parseDigits_natDigits _ _ hx]
    have hni : ((i.toNat : Nat) : Int) = i := Int.toNat_of_nonneg (by omega)
    simp only [Option.map_some']
    rw [hni]

theorem parseMembers_quote (f : Nat) (rest : List Char) :
    parseMembers (f + 1) ('"' :: rest) =
      match parseSB (rest.length + 1) rest with
      | none => none
      | some (k, r1) =>
        match skipWs r1 with
        | ':' :: r2 =>
          match parseValue f (skipWs r2) with
          | none => none
          | some (v, r3) =>
            match skipWs r3 with
            | ',' :: r4 => (parseMembers f (skipWs r4)).map fun p => ((String.mk k, v) :: p.1, p.2)
            | '}' :: r4 => some ([(String.mk k, v)], r4)
            | _ => none
        | _ => none :=
  rfl

theorem dumpMembersL_head (kv : String × JValue) (t : List (String × JValue)) :
    ∃ w, dumpMembersL (kv :: t) = '"' :: w := by
  obtain ⟨k, v⟩ := kv
  cases t <;> simp [dumpMembersL, encodeStringL]

theorem parseMembers_dumps (l : List (String × JValue)) :
    ∀ (fuel : Nat) (x : List Char),
      l ≠ [] → l.length + 1 ≤ fuel →
      (∀ p ∈ l, ∃ n : Int, p.2 = .num n) →
      parseMembers fuel (dumpMembersL l ++ '}' :: x) = some (l, x) := by
  have hsColon : ∀ r : List Char, skipWs (':' :: r) = ':' :: r :=
    fun r => skipWs_cons_not_ws (by decide) r
  have hsQuote : ∀ r : List Char, skipWs ('"' :: r) = '"' :: r :=
    fun r => skipWs_cons_not_ws (by decide) r
  have hsSpace : ∀ r : List Char, skipWs (' ' :: r) = skipWs r := fun r => rfl
  induction l with
  | nil => intro fuel x hne; exact absurd rfl hne
  | cons kv t ih =>
    obtain ⟨k, v⟩ := kv
    intro fuel x _ hfuel hnum
    obtain ⟨n, hv⟩ := hnum (k, v) (List.mem_cons_self _ _)
    simp only at hv
    subst hv
    have hlen : t.length + 2 ≤ fuel := by
      simpa using hfuel
    cases fuel with
    | zero => omega
    | succ f =>
    cases f with
    | zero => omega
    | succ f2 =>
    have hpv : parseValue (f2 + 1) (intDigits n ++ '}' :: x) = some (.num n, '}' :: x) :=
      parseValue_num f2 n ('}' :: x) (by intro c hc; cases hc; decide)
    rcases t with _ | ⟨kv2, t2⟩
    · -- last member
      simp only [dumpMembersL, jsonDumpsL, encodeStringL, List.cons_append,
        List.append_assoc, List.singleton_append, List.nil_append]
      rw [parseMembers_quote]
      have hk := parseSB_encode k.data
        (((k.data.map escCharL).flatten ++ '"' :: ':' :: ' ' :: (intDigits n ++ '}' :: x)).length + 1)
        (':' :: ' ' :: (intDigits n ++ '}' :: x))
        (by have := flatten_escCharL_length k.data
            rw [List.length_append, List.length_cons]
            omega)
      simp only [List.cons_append, List.append_assoc] at hk
      simp only [hk, hsColon, hsSpace, skipWs_intDigits, hpv,
        skipWs_cons_not_ws (by decide : ¬(('}' : Char) = ' ' ∨ ('}' : Char) = '\t' ∨
          ('}' : Char) = '\n' ∨ ('}' : Char) = '\r'))]
    · -- a member followed by more members
      obtain ⟨w, hw⟩ := dumpMembersL_head kv2 t2
      have hpvc : parseValue (f2 + 1) (intDigits n ++ ',' :: ' ' :: (dumpMembersL (kv2 :: t2) ++ '}' :: x))
          = some (.num n, ',' :: ' ' :: (dumpMembersL (kv2 :: t2) ++ '}' :: x)) :=
        parseValue_num f2 n _ (by intro c hc; cases hc; decide)
      have hih := ih (f2 + 1) x (by simp) (by simp at hlen ⊢; omega)
        (fun p hp => hnum p (List.mem_cons_of_mem _ hp))
      simp only [dumpMembersL, jsonDumpsL, encodeStringL, List.cons_append,
        List.append_assoc, List.singleton_append, List.nil_append]
      rw [parseMembers_quote]
      have hk := parseSB_encode k.data
        (((k.data.map escCharL).flatten ++ '"' :: ':' :: ' ' ::
          (intDigits n ++ ',' :: ' ' :: (dumpMembersL (kv2 :: t2) ++ '}' :: x))).length + 1)
        (':' :: ' ' :: (intDigits n ++ ',' :: ' ' :: (dumpMembersL (kv2 :: t2) ++ '}' :: x)))
        (by have := flatten_escCharL_length k.data
            rw [List.length_append, List.length_cons]
            omega)
      simp only [List.cons_append, List.append_assoc] at hk
      simp only [hk, hsColon, hsSpace, skipWs_intDigits, hpvc,
        skipWs_cons_not_ws (by decide : ¬((',' : Char) = ' ' ∨ (',' : Char) = '\t' ∨
          (',' : Char) = '\n' ∨ (',' : Char) = '\r'))]
      rw [hw, List.cons_append, hsQuote, ← List.cons_append, ← hw, hih]
      rfl

theorem parseValue_brace (f : Nat) (rest : List Char) :
    parseValue (f + 1) ('{' :: rest) =
      match skipWs rest with
      | '}' :: r => some (.obj [], r)
      | r => (parseMembers f r).map fun p => (.obj p.1, p.2) :=
  rfl

theorem dumpMembersL_length (l : List (String × JValue)) :
    l.length ≤ (dumpMembersL l).length := by
  induction l with
  | nil => simp [dumpMembersL]
  | cons kv t ih =>
    obtain ⟨k, v⟩ := kv
    cases t with
    | nil => simp [dumpMembersL, encodeStringL]
    | cons kv2 t2 =>
      simp only [dumpMembersL, encodeStringL, List.length_cons, List.cons_append,
        List.length_append] at ih ⊢
      omega

/-- `json.loads ∘ json.dumps` is the identity on flat string-to-number
mappings — the serialization round-trip the `ratings` column performs. -/
theorem parseJson_dumps_flat (v : JValue) (h : isFlatStringNumMap v = true) :
    parseJson (jsonDumps v) = some v := by
  cases v with
  | null => exact Bool.noConfusion h
  | bool b => exact Bool.noConfusion h
  | num n => exact Bool.noConfusion h
  | str s => exact Bool.noConfusion h
  | arr l => exact Bool.noConfusion h
  | obj l =>
    have hnums : ∀ p ∈ l, ∃ n : Int, p.2 = .num n := by
      intro p hp
      have hall := (List.all_eq_true.mp h) p hp
      cases hp2 : p.2 with
      | num n => exact ⟨n, rfl⟩
      | null => rw [hp2] at hall; exact Bool.noConfusion hall
      | bool b => rw [hp2] at hall; exact Bool.noConfusion hall
      | str s => rw [hp2] at hall; exact Bool.noConfusion hall
      | arr l2 => rw [hp2] at hall; exact Bool.noConfusion hall
      | obj l2 => rw [hp2] at hall; exact Bool.noConfusion hall
    rcases l with _ | ⟨kv, t⟩
    · rfl
    · obtain ⟨w, hw⟩ := dumpMembersL_head kv t
      have hq : ∀ r : List Char, skipWs ('"' :: r) = '"' :: r :=
        fun r => skipWs_cons_not_ws (by decide) r
      have hlen := dumpMembersL_length (kv :: t)
      show parseJson (String.mk ('{' :: (dumpMembersL (kv :: t) ++ ['}']))) = _
      have hdata : (String.mk ('{' :: (dumpMembersL (kv :: t) ++ ['}']))).data
          = '{' :: (dumpMembersL (kv :: t) ++ ['}']) := rfl
      simp only [parseJson, hdata, List.length_cons,
        skipWs_cons_not_ws (by decide : ¬(('{' : Char) = ' ' ∨ ('{' : Char) = '\t' ∨
          ('{' : Char) = '\n' ∨ ('{' : Char) = '\r'))]
      have hwl : (dumpMembersL (kv :: t)).length = w.length + 1 := by rw [hw]; rfl
      rw [parseValue_brace, hw, List.cons_append, hq]
      rw [show (match ('"' :: (w ++ ['}']) : List Char) with
            | '}' :: r => some (JValue.obj [], r)
            | r => (parseMembers (('"' :: (w ++ ['}'])).length + 1) r).map
                fun p => (JValue.obj p.1, p.2))
          = (parseMembers (('"' :: (w ++ ['}'])).length + 1)
              ('"' :: (w ++ ['}']))).map (fun p => (JValue.obj p.1, p.2)) from rfl]
      rw [show ('"' :: (w ++ ['}']) : List Char) = dumpMembersL (kv :: t) ++ ['}'] from by
        rw [hw, List.cons_append]]
      rw [parseMembers_dumps (kv :: t) ((dumpMembersL (kv :: t) ++ ['}']).length + 1) []
        (by simp)
        (by simp only [List.length_append, List.length_cons, List.length_nil] at hlen ⊢
            omega)
        hnums]
      rfl

/-! ## Helper lemmas: the record store -/

theorem setField_frame (r : Row) (k : String) (v : JValue) :
    (setField r k v).id = r.id ∧ (setField r k v).created_at = r.created_at ∧
    (k ≠ "self_reflection" → (setField r k v).self_reflection = r.self_reflection) ∧
    (k ≠ "ratings" → (setField r k v).ratings = r.ratings) ∧
    (k ≠ "conclusion" → (setField r k v).conclusion = r.conclusion) ∧
    (k ≠ "notes" → (setField r k v).notes = r.notes) ∧
    (k ≠ "star_notes" → (setField r k v).star_notes = r.star_notes) ∧
    (k ≠ "vesier_notes" → (setField r k v).vesier_notes = r.vesier_notes) ∧
    (k ≠ "reflection_consistency" →
      (setField r k v).reflection_consistency = r.reflection_consistency) ∧
    (k ≠ "consented" → (setField r k v).consented = r.consented) ∧
    (k ≠ "consent_date" → (setField r k v).consent_date = r.consent_date) := by
  unfold setField
  split_ifs <;> simp_all

theorem applyUpdates_frame (us : List (String × JValue)) (r : Row) :
    (applyUpdates r us).id = r.id ∧ (applyUpdates r us).created_at = r.created_at ∧
    ((∀ kv ∈ us, kv.1 ≠ "self_reflection") →
      (applyUpdates r us).self_reflection = r.self_reflection) ∧
    ((∀ kv ∈ us, kv.1 ≠ "ratings") → (applyUpdates r us).ratings = r.ratings) ∧
    ((∀ kv ∈ us, kv.1 ≠ "conclusion") → (applyUpdates r us).conclusion = r.conclusion) ∧
    ((∀ kv ∈ us, kv.1 ≠ "notes") → (applyUpdates r us).notes = r.notes) ∧
    ((∀ kv ∈ us, kv.1 ≠ "star_notes") → (applyUpdates r us).star_notes = r.star_notes) ∧
    ((∀ kv ∈ us, kv.1 ≠ "vesier_notes") → (applyUpdates r us).vesier_notes = r.vesier_notes) ∧
    ((∀ kv ∈ us, kv.1 ≠ "reflection_consistency") →
      (applyUpdates r us).reflection_consistency = r.reflection_consistency) ∧
    ((∀ kv ∈ us, kv.1 ≠ "consented") → (applyUpdates r us).consented = r.consented) ∧
    ((∀ kv ∈ us, kv.1 ≠ "consent_date") → (applyUpdates r us).consent_date = r.consent_date) := by
  induction us generalizing r with
  | nil => simp [applyUpdates]
  | cons kv rest ih =>
    obtain ⟨k, v⟩ := kv
    have hfold : applyUpdates r ((k, v) :: rest) = applyUpdates (setField r k v) rest := rfl
    obtain ⟨sid, scr, s1, s2, s3, s4, s5, s6, s7, s8, s9⟩ := setField_frame r k v
    obtain ⟨iid, icr, i1, i2, i3, i4, i5, i6, i7, i8, i9⟩ := ih (setField r k v)
    rw [hfold]
    refine ⟨iid.trans sid, icr.trans scr, ?_, ?_, ?_, ?_, ?_, ?_, ?_, ?_, ?_⟩ <;>
      intro hall
    · exact (i1 fun kv hm => hall kv (List.mem_cons_of_mem _ hm)).trans
        (s1 (hall (k, v) (List.mem_cons_self _ _)))
    · exact (i2 fun kv hm => hall kv (List.mem_cons_of_mem _ hm)).trans
        (s2 (hall (k, v) (List.mem_cons_self _ _)))
    · exact (i3 fun kv hm => hall kv (List.mem_cons_of_mem _ hm)).trans
        (s3 (hall (k, v) (List.mem_cons_self _ _)))
    · exact (i4 fun kv hm => hall kv (List.mem_cons_of_mem _ hm)).trans
        (s4 (hall (k, v) (List.mem_cons_self _ _)))
    · exact (i5 fun kv hm => hall kv (List.mem_cons_of_mem _ hm)).trans
        (s5 (hall (k, v) (List.mem_cons_self _ _)))
    · exact (i6 fun kv hm => hall kv (List.mem_cons_of_mem _ hm)).trans
        (s6 (hall (k, v) (List.mem_cons_self _ _)))
    · exact (i7 fun kv hm => hall kv (List.mem_cons_of_mem _ hm)).trans
        (s7 (hall (k, v) (List.mem_cons_self _ _)))
    · exact (i8 fun kv hm => hall kv (List.mem_cons_of_mem _ hm)).trans
        (s8 (hall (k, v) (List.mem_cons_self _ _)))
    · exact (i9 fun kv hm => hall kv (List.mem_cons_of_mem _ hm)).trans
        (s9 (hall (k, v) (List.mem_cons_self _ _)))

theorem applyUpdates_id (us : List (String × JValue)) (r : Row) :
    (applyUpdates r us).id = r.id :=
  (applyUpdates_frame us r).1

theorem find?_map_pres {g : Row → Row} (hg : ∀ r, (g r).id = r.id) (st : List Row)
    (q : String) :
    (st.map g).find? (fun row => row.id == q) =
      (st.find? (fun row => row.id == q)).map g := by
  induction st with
  | nil => rfl
  | cons a t ih =>
    have hpres : ((g a).id == q) = (a.id == q) := by rw [hg]
    simp only [List.map_cons, List.find?_cons, hpres]
    cases hb : (a.id == q) <;> simp [ih]

theorem update_candidate_fst (st : List Row) (cid : String)
    (payload : List (String × JValue)) :
    (update_candidate st cid payload).1 = st ∨
    (update_candidate st cid payload).1 =
      st.map (fun r => if r.id = cid then
        applyUpdates r (payload.filter fun kv => allowed_fields.contains kv.1) else r) := by
  simp only [update_candidate]
  split_ifs <;> simp

theorem not_hasKey_filter {payload : List (String × JValue)} {f : String}
    (h : payloadHasKey payload f = false) :
    ∀ kv ∈ payload.filter (fun kv => allowed_fields.contains kv.1), kv.1 ≠ f := by
  intro kv hkv heq
  have hmem : kv ∈ payload := (List.mem_filter.mp hkv).1
  have : payloadHasKey payload f = true := by
    unfold payloadHasKey
    exact List.any_eq_true.mpr ⟨kv, hmem, by rw [heq]; exact beq_self_eq_true f⟩
  rw [this] at h
  exact Bool.noConfusion h

theorem row_to_dict_consented (r : Row) (x : Int) :
    row_to_dict {r with consented := x} =
      (row_to_dict r).map (fun c => {c with consented := x != 0}) := by
  simp only [row_to_dict]
  cases hrat : r.ratings with
  | none => rfl
  | some s =>
    by_cases hs : s = ""
    · simp [hs]
    · simp only [if_neg hs]
      cases hp : parseJson s <;> simp [hp]

theorem row_to_dict_set_ratings (r : Row) (s : String) (hs : ¬ s = "") (w : JValue)
    (hp : parseJson s = some w) :
    row_to_dict {r with ratings := some s} = some
      { id := r.id, created_at := r.created_at, self_reflection := r.self_reflection,
        ratings := some w, conclusion := r.conclusion, notes := r.notes,
        star_notes := r.star_notes, vesier_notes := r.vesier_notes,
        reflection_consistency := r.reflection_consistency,
        consented := r.consented != 0, consent_date := r.consent_date } := by
  simp only [row_to_dict, if_neg hs, hp]

theorem isFlat_ratingsObj (m : List (String × Int)) :
    isFlatStringNumMap (ratingsObj m) = true := by
  simp only [ratingsObj, isFlatStringNumMap, List.all_map]
  simp only [List.all_eq_true, Function.comp, List.mem_map, Prod.exists]
  rintro a ⟨x, y, hm, rfl⟩
  rfl

/-! ## Claim C9 — partial updates touch only the named fields. -/

/-- C9: whatever the payload and whether or not the id exists (and on the
rejected branches as well), the store after `update_candidate` has the
same rows in the same order, the `id` and `created_at` of every row are
unchanged, and every mutable column not named in the payload keeps its
previous value. -/
theorem C9_partial_update_frame (st : List Row) (cid : String)
    (payload : List (String × JValue)) :
    List.Forall₂ (fun r r2 =>
      r2.id = r.id ∧ r2.created_at = r.created_at ∧
      (payloadHasKey payload "self_reflection" = false →
        r2.self_reflection = r.self_reflection) ∧
      (payloadHasKey payload "ratings" = false → r2.ratings = r.ratings) ∧
      (payloadHasKey payload "conclusion" = false → r2.conclusion = r.conclusion) ∧
      (payloadHasKey payload "notes" = false → r2.notes = r.notes) ∧
      (payloadHasKey payload "star_notes" = false → r2.star_notes = r.star_notes) ∧
      (payloadHasKey payload "vesier_notes" = false → r2.vesier_notes = r.vesier_notes) ∧
      (payloadHasKey payload "reflection_consistency" = false →
        r2.reflection_consistency = r.reflection_consistency) ∧
      (payloadHasKey payload "consented" = false → r2.consented = r.consented) ∧
      (payloadHasKey payload "consent_date" = false → r2.consent_date = r.consent_date))
      st (update_candidate st cid payload).1 := by
  rcases update_candidate_fst st cid payload with heq | heq <;> rw [heq]
  · exact List.forall₂_same.mpr (fun r _ =>
      ⟨rfl, rfl, fun _ => rfl, fun _ => rfl, fun _ => rfl, fun _ => rfl, fun _ => rfl,
       fun _ => rfl, fun _ => rfl, fun _ => rfl, fun _ => rfl⟩)
  · rw [List.forall₂_map_right_iff]
    apply List.forall₂_same.mpr
    intro r _
    by_cases hid : r.id = cid
    · rw [if_pos hid]
      obtain ⟨aid, acr, a1, a2, a3, a4, a5, a6, a7, a8, a9⟩ :=
        applyUpdates_frame (payload.filter fun kv => allowed_fields.contains kv.1) r
      exact ⟨aid, acr,
        fun h => a1 (not_hasKey_filter h), fun h => a2 (not_hasKey_filter h),
        fun h => a3 (not_hasKey_filter h), fun h => a4 (not_hasKey_filter h),
        fun h => a5 (not_hasKey_filter h), fun h => a6 (not_hasKey_filter h),
        fun h => a7 (not_hasKey_filter h), fun h => a8 (not_hasKey_filter h),
        fun h => a9 (not_hasKey_filter h)⟩
    · rw [if_neg hid]
      exact ⟨rfl, rfl, fun _ => rfl, fun _ => rfl, fun _ => rfl, fun _ => rfl,
        fun _ => rfl, fun _ => rfl, fun _ => rfl, fun _ => rfl, fun _ => rfl⟩

/-! ## Claim C10 — `consented` stores Python truthiness. -/

/-- C10: updating `consented` with any JSON value `v` stores the integer
`1 if v else 0` — Python truthiness, so the string `"false"` or the
number 2 store 1 — and a subsequent get returns `consented` as exactly
that truthiness. -/
theorem C10_consented_truthiness (st : List Row) (cid : String) (v : JValue) (r : Row)
    (hfind : st.find? (fun row => row.id == cid) = some r)
    (hok : (row_to_dict r).isSome = true) :
    (update_candidate st cid [("consented", v)]).2 = .updated ∧
    (∃ r2, (update_candidate st cid [("consented", v)]).1.find?
        (fun row => row.id == cid) = some r2 ∧
      r2.consented = (if jTruthy v then 1 else 0)) ∧
    (∃ c, get_candidate (update_candidate st cid [("consented", v)]).1 cid = .ok c ∧
      c.consented = jTruthy v) := by
  have hrid : r.id = cid := by
    have := List.find?_some hfind
    simpa using this
  have hfil : ([(("consented" : String), v)]).filter
      (fun kv => allowed_fields.contains kv.1) = [("consented", v)] := rfl
  have hupd : update_candidate st cid [("consented", v)] =
      (st.map (fun row => if row.id = cid then
        applyUpdates row [("consented", v)] else row), .updated) := by
    rw [@update_candidate_updated st cid [("consented", v)] rfl rfl, hfil]
  have hg : ∀ row : Row,
      ((if row.id = cid then applyUpdates row [("consented", v)] else row)).id = row.id := by
    intro row
    by_cases h : row.id = cid
    · rw [if_pos h]; exact applyUpdates_id _ _
    · rw [if_neg h]
  have hfind2 : (st.map (fun row => if row.id = cid then
      applyUpdates row [("consented", v)] else row)).find? (fun row => row.id == cid)
      = some (applyUpdates r [("consented", v)]) := by
    rw [find?_map_pres hg, hfind, Option.map_some', if_pos hrid]
  have hgr : applyUpdates r [("consented", v)] =
      {r with consented := if jTruthy v then 1 else 0} := rfl
  obtain ⟨c, hc⟩ := Option.isSome_iff_exists.mp hok
  have hdict : row_to_dict (applyUpdates r [("consented", v)]) =
      some {c with consented := (if jTruthy v then (1 : Int) else 0) != 0} := by
    rw [hgr, row_to_dict_consented, hc, Option.map_some']
  have htruth : ((if jTruthy v then (1 : Int) else 0) != 0) = jTruthy v := by
    cases jTruthy v <;> decide
  refine ⟨by rw [hupd], ⟨applyUpdates r [("consented", v)], ?_, ?_⟩,
    ⟨{c with consented := (if jTruthy v then (1 : Int) else 0) != 0}, ?_, ?_⟩⟩
  · rw [hupd]; exact hfind2
  · rw [hgr]
  · rw [hupd]
    simp only [get_candidate, hfind2, hdict]
  · simpa using htruth

/-- C10, witness: storing the (truthy) string `"false"` as `consented` on
a fresh record reports `updated` and reads back as `true`. -/
theorem C10_witness :
    (update_candidate [blankRow "BW-2025-00001" "T"] "BW-2025-00001"
      [("consented", JValue.str "false")]).2 = .updated :=
  (C10_consented_truthiness [blankRow "BW-2025-00001" "T"] "BW-2025-00001"
    (JValue.str "false") (blankRow "BW-2025-00001" "T") rfl rfl).1

/-! ## Claim C5 — ratings survive the serialization round-trip. -/

/-- C5: for an existing id, updating `ratings` with a mapping `m` reports
`updated`, and an immediate get returns a candidate whose `ratings` is
exactly `m` — the `json.dumps`/TEXT-column/`json.loads` round-trip is the
identity on ratings mappings. -/
theorem C5_ratings_roundtrip (st : List Row) (cid : String) (m : List (String × Int))
    (r : Row) (hfind : st.find? (fun row => row.id == cid) = some r) :
    (update_candidate st cid [("ratings", ratingsObj m)]).2 = .updated ∧
    ∃ c, get_candidate (update_candidate st cid [("ratings", ratingsObj m)]).1 cid = .ok c ∧
      c.ratings = some (ratingsObj m) := by
  have hrid : r.id = cid := by
    have := List.find?_some hfind
    simpa using this
  have hfil : ([(("ratings" : String), ratingsObj m)]).filter
      (fun kv => allowed_fields.contains kv.1) = [("ratings", ratingsObj m)] := rfl
  have hupd : update_candidate st cid [("ratings", ratingsObj m)] =
      (st.map (fun row => if row.id = cid then
        applyUpdates row [("ratings", ratingsObj m)] else row), .updated) := by
    rw [@update_candidate_updated st cid [("ratings", ratingsObj m)] rfl rfl, hfil]
  have hg : ∀ row : Row,
      ((if row.id = cid then applyUpdates row [("ratings", ratingsObj m)] else row)).id
        = row.id := by
    intro row
    by_cases h : row.id = cid
    · rw [if_pos h]; exact applyUpdates_id _ _
    · rw [if_neg h]
  have hfind2 : (st.map (fun row => if row.id = cid then
      applyUpdates row [("ratings", ratingsObj m)] else row)).find?
      (fun row => row.id == cid) = some (applyUpdates r [("ratings", ratingsObj m)]) := by
    rw [find?_map_pres hg, hfind, Option.map_some', if_pos hrid]
  have hgr : applyUpdates r [("ratings", ratingsObj m)] =
      {r with ratings := some (jsonDumps (ratingsObj m))} := rfl
  have hs : ¬ (jsonDumps (ratingsObj m) = "") := by
    intro h
    have hd := congrArg String.data h
    rw [show (jsonDumps (ratingsObj m)).data =
      '{' :: (dumpMembersL (m.map fun p => (p.1, JValue.num p.2)) ++ ['}']) from rfl] at hd
    simp at hd
  have hp : parseJson (jsonDumps (ratingsObj m)) = some (ratingsObj m) :=
    parseJson_dumps_flat _ (isFlat_ratingsObj m)
  have hdict := row_to_dict_set_ratings r (jsonDumps (ratingsObj m)) hs (ratingsObj m) hp
  refine ⟨by rw [hupd],
    ⟨{ id := r.id, created_at := r.created_at, self_reflection := r.self_reflection,
       ratings := some (ratingsObj m), conclusion := r.conclusion, notes := r.notes,
       star_notes := r.star_notes, vesier_notes := r.vesier_notes,
       reflection_consistency := r.reflection_consistency,
       consented := r.consented != 0, consent_date := r.consent_date }, ?_, rfl⟩⟩
  rw [hupd]
  simp only [get_candidate, hfind2, hgr, hdict]

/-- C5, witness: `{Kommunikation: 4}` stored for a freshly created record
reports `updated`. -/
theorem C5_witness :
    (update_candidate [blankRow "BW-2025-00001" "T"] "BW-2025-00001"
      [("ratings", ratingsObj [("Kommunikation", 4)])]).2 = .updated :=
  (C5_ratings_roundtrip [blankRow "BW-2025-00001" "T"] "BW-2025-00001"
    [("Kommunikation", 4)] (blankRow "BW-2025-00001" "T") rfl).1

/-! ## Claim C8 — shape of stored ratings values. -/

theorem setField_ratings_ne_null (r : Row) {v : JValue} (hv : v ≠ .null) :
    (setField r "ratings" v).ratings = some (jsonDumps v) := by
  cases v <;> first | exact absurd rfl hv | rfl

theorem applyUpdates_ratings (us : List (String × JValue)) (r : Row) :
    (applyUpdates r us).ratings = r.ratings ∨
    (applyUpdates r us).ratings = none ∨
    ∃ kv ∈ us, kv.1 = "ratings" ∧ kv.2 ≠ .null ∧
      (applyUpdates r us).ratings = some (jsonDumps kv.2) := by
  induction us generalizing r with
  | nil => exact Or.inl rfl
  | cons kv rest ih =>
    obtain ⟨k, v⟩ := kv
    have hfold : applyUpdates r ((k, v) :: rest) = applyUpdates (setField r k v) rest := rfl
    rw [hfold]
    rcases ih (setField r k v) with h | h | ⟨kv2, hm, hk2, hnn, he⟩
    · rw [h]
      by_cases hk : k = "ratings"
      · subst hk
        by_cases hv : v = .null
        · subst hv
          exact Or.inr (Or.inl rfl)
        · refine Or.inr (Or.inr ⟨("ratings", v), List.mem_cons_self _ _, rfl, hv, ?_⟩)
          exact setField_ratings_ne_null r hv
      · exact Or.inl ((setField_frame r k v).2.2.2.1 hk)
    · exact Or.inr (Or.inl h)
    · exact Or.inr (Or.inr ⟨kv2, List.mem_cons_of_mem _ hm, hk2, hnn, he⟩)

/-- C8, counterexample: starting from the empty store, a legal create
followed by `update(id, {ratings: "hello"})` — a payload the allow-list
accepts and the code serializes without any shape validation — yields a
reachable state whose stored ratings text is `"hello"`, which
deserializes to a JSON *string*, not a flat string-to-number mapping.
This refutes the claimed invariant. -/
theorem C8_counterexample :
    Reachable ((update_candidate
        (create_candidate [] (generate_candidate_id 2025 1) "T").1
        "BW-2025-00001" [("ratings", JValue.str "hello")]).1) ∧
    ((update_candidate (create_candidate [] (generate_candidate_id 2025 1) "T").1
        "BW-2025-00001" [("ratings", JValue.str "hello")]).1.map (fun r => r.ratings))
      = [some "\"hello\""] ∧
    (parseJson "\"hello\"").map isFlatStringNumMap = some false := by
  refine ⟨Reachable.update _ _ (Reachable.create 2025 1 "T" (by omega) Reachable.init),
    ?_, ?_⟩
  · rfl
  · rfl

/-- C8, amended: the store itself never validates the shape — a stored
`ratings`, when present, is whatever JSON value the last update supplied.
The claimed invariant holds exactly on the runs whose update payloads
give `ratings` only null or flat string-to-number mappings (the payloads
the spec's data model describes): in every state reachable by such
operations, each present ratings text deserializes to a flat
string-to-number mapping. -/
theorem C8_flat_ratings_invariant (st : List Row) (h : ReachableFlat st) :
    RatingsWellFormed st := by
  induction h with
  | init => intro r hr; simp at hr
  | create year n created hn hprev ih =>
    intro r hr s hs
    unfold create_candidate at hr
    split_ifs at hr with hc
    · exact ih r hr s hs
    · rcases List.mem_append.mp hr with hm | hm
      · exact ih r hm s hs
      · simp at hm
        subst hm
        simp [blankRow] at hs
  | update cid payload hflat hprev ih =>
    rename_i stp
    intro r2 hr2 s hs
    rcases update_candidate_fst stp cid payload with heq | heq
    · rw [heq] at hr2
      exact ih r2 hr2 s hs
    · rw [heq] at hr2
      obtain ⟨r, hr, hmap⟩ := List.mem_map.mp hr2
      by_cases hid : r.id = cid
      · rw [if_pos hid] at hmap
        rcases applyUpdates_ratings
            (payload.filter fun kv => allowed_fields.contains kv.1) r with
          ha | ha | ⟨kv, hm, hk, hnn, he⟩
        · rw [hmap] at ha
          exact ih r hr s (ha.symm.trans hs)
        · rw [hmap] at ha
          rw [ha] at hs
          exact Option.noConfusion hs
        · rw [hmap] at he
          rw [he] at hs
          have hsome : jsonDumps kv.2 = s := by injection hs
          have hkvp : kv ∈ payload := (List.mem_filter.mp hm).1
          rcases hflat kv hkvp hk with hnull | hfl
          · exact absurd hnull hnn
          · exact ⟨kv.2, by rw [← hsome]; exact parseJson_dumps_flat _ hfl, hfl⟩
      · rw [if_neg hid] at hmap
        subst hmap
        exact ih r hr s hs
  | delete cid hprev ih =>
    intro r hr s hs
    have : r ∈ _ := hr
    unfold delete_candidate at hr
    exact ih r (List.mem_filter.mp hr).1 s hs

/-- C8, witness: a concrete flat-payload run — create, then store
`{Kommunikation: 4}` — satisfies the deserialization invariant. -/
theorem C8_witness :
    RatingsWellFormed ((update_candidate
      (create_candidate [] (generate_candidate_id 2025 2) "T").1
      "BW-2025-00002" [("ratings", ratingsObj [("Kommunikation", 4)])]).1) :=
  C8_flat_ratings_invariant _
    (ReachableFlat.update _ _
      (by intro kv hm hk
          obtain rfl := List.mem_singleton.mp hm
          right
          rfl)
      (ReachableFlat.create 2025 2 "T" (by omega) ReachableFlat.init))

end Bewerbertool
